import Mathlib

/-!
Verification of the clinic slot-scheduling and exclusive-reservation engine.

The development shallowly embeds the slot module (time parsing and
formatting, calendar arithmetic, slot generation) and the two HTTP
operations (availability resolution and the atomic reservation
transaction) as executable Lean functions, and proves the specified
properties about them.

Strings are modelled as lists of characters (`Str`), and JavaScript
numbers as `Option Int`, where `none` plays the role of `NaN`: every
arithmetic operation and comparison involving `NaN` follows the
JavaScript rules (arithmetic propagates `NaN`, comparisons with `NaN`
are false).
-/

namespace Physio

/-- Model of a JavaScript string: a list of characters. -/
abbrev Str := List Char

/-- Character split, modelling the JavaScript `split` with a one-character
separator: `"a:b".split(":") = ["a","b"]`, `"".split(":") = [""]`. -/
def splitOnChar (sep : Char) : Str → List Str
  | [] => [[]]
  | c :: cs =>
    match splitOnChar sep cs with
    | [] => [[c]]
    | x :: xs => if c = sep then [] :: x :: xs else (c :: x) :: xs

/-- Value of a string of decimal digits, most significant first (the fold
JavaScript effectively performs when converting a digit string to a number). -/
def digitsVal (s : Str) : Nat :=
  s.foldl (fun n c => n * 10 + (c.toNat - 48)) 0

/-- The whitespace class JavaScript trims before a numeric conversion
(ECMA-262 `StrWhiteSpaceChar` = WhiteSpace plus LineTerminator): TAB, LF,
VT, FF, CR, SP, NBSP, Ogham space, the U+2000..U+200A spaces, LS, PS,
NNBSP, MMSP, ideographic space and ZWNBSP. -/
def jsWhiteSpace (c : Char) : Bool :=
  c.toNat = 9 || c.toNat = 10 || c.toNat = 11 || c.toNat = 12 || c.toNat = 13 ||
  c.toNat = 32 || c.toNat = 160 || c.toNat = 0x1680 ||
  (0x2000 ≤ c.toNat && c.toNat ≤ 0x200A) ||
  c.toNat = 0x2028 || c.toNat = 0x2029 || c.toNat = 0x202F || c.toNat = 0x205F ||
  c.toNat = 0x3000 || c.toNat = 0xFEFF

/-- The leading/trailing whitespace strip that JavaScript `Number(string)`
performs before parsing the numeric literal. -/
def jsTrim (s : Str) : Str :=
  ((s.dropWhile jsWhiteSpace).reverse.dropWhile jsWhiteSpace).reverse

/-- Model of the JavaScript `Number(string)` conversion on the value
domain of this embedding: after the JavaScript whitespace strip, the empty
string coerces to `0` and a string of ASCII decimal digits to its value.
`none` covers everything else, i.e. both the strings whose conversion is
`NaN` and the numeric forms outside this embedding's non-negative-integer
domain (signed, fractional, exponent, hexadecimal, octal, binary and
Infinity forms).  The predicate `jsNaN` below identifies exactly the
strings whose JavaScript conversion is `NaN`, and every theorem whose
hypothesis speaks of `NaN` states it through `jsNaN`, never through
`jsNumber` returning `none`. -/
def jsNumber (s : Str) : Option Int :=
  let t := jsTrim s
  if t.isEmpty then some 0
  else if t.all Char.isDigit then some ((digitsVal t : Int))
  else none

/-- JavaScript `<` on numbers: false whenever either side is `NaN`. -/
def jlt : Option Int → Option Int → Bool
  | some a, some b => decide (a < b)
  | _, _ => false

/-- JavaScript `<=` on numbers: false whenever either side is `NaN`. -/
def jle : Option Int → Option Int → Bool
  | some a, some b => decide (a ≤ b)
  | _, _ => false

/-- Decimal digit character, `digitChar 3 = '3'`. -/
def digitChar (d : Nat) : Char := Char.ofNat (48 + d)

/-- Accumulator loop of the decimal representation.  The first argument is
fuel that makes the recursion structural (so the kernel can evaluate it);
`n` shrinks by a factor of ten each step, so fuel `n + 1` always
suffices. -/
def natDigitsAux : Nat → Nat → Str → Str
  | 0, _, acc => acc
  | fuel + 1, n, acc =>
    if n < 10 then digitChar n :: acc
    else natDigitsAux fuel (n / 10) (digitChar (n % 10) :: acc)

/-- Decimal representation of a natural number, modelling the JavaScript
`(n).toString()` for non-negative integers. -/
def natDigits (n : Nat) : Str := natDigitsAux (n + 1) n []

/-- Decimal representation of an integer, modelling JavaScript
`(v).toString()` / string interpolation of an integer. -/
def intToStr (v : Int) : Str :=
  if v < 0 then '-' :: natDigits (-v).toNat else natDigits v.toNat

/-- Model of JavaScript `padStart(2, "0")`. -/
def padStart2 (s : Str) : Str :=
  List.replicate (2 - s.length) '0' ++ s

/-- Lexicographic comparison of strings by character code, modelling the
JavaScript `<` operator on strings. -/
def strLt : Str → Str → Bool
  | _, [] => false
  | [], _ :: _ => true
  | a :: as, b :: bs =>
    decide (a.toNat < b.toNat) || (a = b && strLt as bs)

/-- Lexicographic `≤` on strings: strictly below or equal. -/
def strLe (a b : Str) : Bool := strLt a b || a = b

/-- Model of JavaScript `trim()`: strip whitespace from both ends. -/
def trimStr (s : Str) : Str :=
  ((s.dropWhile Char.isWhitespace).reverse.dropWhile Char.isWhitespace).reverse

end Physio

namespace Physio

/-! ## The slots module (source file `slots.ts`). -/

/-- Working hours of the clinic.  The source field `end` is a reserved word
in Lean and is rendered as `finish`. -/
structure WorkHours where
  start : Str
  finish : Str
deriving DecidableEq, Repr

/-- One break window inside the working hours (source field `end`
rendered as `finish`). -/
structure BreakWindow where
  start : Str
  finish : Str
deriving DecidableEq, Repr

/-- A bookable slot: `startTime`/`endTime` formatted `HH:MM` and the
natural key `dateISO ++ "_" ++ startTime`. -/
structure Slot where
  startTime : Str
  endTime : Str
  key : Str
deriving DecidableEq, Repr

/-- Argument record of `generateSlots` (source type `GenerateSlotsParams`;
the optional `breaks` default `[]` is applied by the callers). -/
structure GenerateSlotsParams where
  dateIso : Str
  workHours : WorkHours
  breaks : List BreakWindow
  slotMinutes : Int
deriving DecidableEq, Repr

/-- Source `parseTimeToMinutes`: split on `":"`, convert the first two
components with `Number`, return `hours * 60 + minutes`.  A missing minutes
component (fewer than two parts) leaves `minutes` undefined, and the sum is
`NaN`; a component that fails `Number` conversion likewise yields `NaN`. -/
def parseTimeToMinutes (value : Str) : Option Int :=
  match splitOnChar ':' value with
  | [] => none
  | [_] => none
  | h :: m :: _ =>
    match jsNumber h, jsNumber m with
    | some hv, some mv => some (hv * 60 + mv)
    | _, _ => none

/-- Source `formatMinutesToTime`: `Math.floor(value / 60)` and `value % 60`
(JavaScript floor division and truncated remainder), each rendered in
decimal and left-padded to two characters with `"0"`. -/
def formatMinutesToTime (value : Int) : Str :=
  let hours := Int.fdiv value 60
  let minutes := Int.tmod value 60
  padStart2 (intToStr hours) ++ [':'] ++ padStart2 (intToStr minutes)

/-- Source `hasOverlap`: `slotStart < breakEnd && slotEnd > breakStart`
(the JavaScript `a > b` is `b < a`; any `NaN` operand makes the comparison
false). -/
def hasOverlap (slotStart slotEnd breakStart breakEnd : Option Int) : Bool :=
  jlt slotStart breakEnd && jlt breakStart slotEnd

/-- Source `createSlotKey`. -/
def createSlotKey (dateIso startTime : Str) : Str :=
  dateIso ++ ['_'] ++ startTime

/-- The `for` loop of `generateSlots`: starting at `start`, while
`start + slotMinutes <= workEnd`, emit the slot `[start, start+slotMinutes)`
unless it overlaps some break, then advance by `slotMinutes`.  The loop only
runs when both parsed work bounds are numbers (a `NaN` bound makes the loop
guard false at entry), so it is stated on integers.  The `Nat` argument is
fuel making the recursion structural: the loop advances by
`slotMinutes ≥ 1` each iteration (positivity comes from the early return of
`generateSlots`), so `(workEnd - start).toNat + 1` units always suffice and
the fuel never runs out. -/
def slotLoop (dateIso : Str) (breakWindows : List (Option Int × Option Int))
    (slotMinutes : Int) (workEnd : Int) : Nat → Int → List Slot
  | 0, _ => []
  | fuel + 1, start =>
    if start + slotMinutes ≤ workEnd then
      let e := start + slotMinutes
      let rest := slotLoop dateIso breakWindows slotMinutes workEnd fuel e
      if breakWindows.any (fun bw => hasOverlap (some start) (some e) bw.1 bw.2) then
        rest
      else
        { startTime := formatMinutesToTime start
          endTime := formatMinutesToTime e
          key := dateIso ++ ['_'] ++ formatMinutesToTime start } :: rest
    else []

/-- Source `generateSlots`: early return on `slotMinutes <= 0`, parse the
work bounds and the breaks, then run the slot loop.  When either work bound
parses to `NaN`, the loop guard `start + slotMinutes <= workEnd` is false at
entry and the loop body never runs, so the result is `[]`. -/
def generateSlots (p : GenerateSlotsParams) : List Slot :=
  if hm : p.slotMinutes ≤ 0 then []
  else
    match parseTimeToMinutes p.workHours.start, parseTimeToMinutes p.workHours.finish with
    | some workStart, some workEnd =>
      slotLoop p.dateIso
        (p.breaks.map (fun bw => (parseTimeToMinutes bw.start, parseTimeToMinutes bw.finish)))
        p.slotMinutes workEnd ((workEnd - workStart).toNat + 1) workStart
    | _, _ => []

/-- Source `addDaysISO` relies on the UTC calendar arithmetic of the
JavaScript `Date` object.  `daysFromCivil` is that arithmetic's
date-to-epoch-days direction for a civil date with month in `1..12`
(the standard proleptic-Gregorian conversion, floor-division form). -/
def daysFromCivil (y m d : Int) : Int :=
  let yy := if m ≤ 2 then y - 1 else y
  let era := Int.fdiv yy 400
  let yoe := yy - era * 400
  let mp := Int.fmod (m + 9) 12
  let doy := Int.fdiv (153 * mp + 2) 5 + d - 1
  let doe := yoe * 365 + Int.fdiv yoe 4 - Int.fdiv yoe 100 + doy
  era * 146097 + doe - 719468

/-- Inverse direction of the UTC calendar arithmetic: epoch days back to a
civil `(year, month, day)` triple (standard proleptic-Gregorian
conversion, floor-division form). -/
def civilFromDays (z0 : Int) : Int × Int × Int :=
  let z := z0 + 719468
  let era := Int.fdiv z 146097
  let doe := z - era * 146097
  let yoe := Int.fdiv (doe - Int.fdiv doe 1460 + Int.fdiv doe 36524 - Int.fdiv doe 146096) 365
  let y := yoe + era * 400
  let doy := doe - (365 * yoe + Int.fdiv yoe 4 - Int.fdiv yoe 100)
  let mp := Int.fdiv (5 * doy + 2) 153
  let d := doy - Int.fdiv (153 * mp + 2) 5 + 1
  let m := if mp < 10 then mp + 3 else mp - 9
  (if m ≤ 2 then y + 1 else y, m, d)

/-- Source `addDaysISO`: split the date on `"-"`, convert the three
components with `Number`, add `days` on the UTC calendar
(`Date.UTC` / `setUTCDate`), and re-format, padding month and day to two
digits (the year is interpolated unpadded).  When any component is missing
or fails conversion the `Date` is invalid and every extracted component is
`NaN`, so the interpolation produces `"NaN-NaN-NaN"`. -/
def addDaysIso (dateIso : Str) (days : Int) : Str :=
  match (splitOnChar '-' dateIso).map jsNumber with
  | some y :: some m :: some d :: _ =>
    let yn := y + Int.fdiv (m - 1) 12
    let mn := Int.fmod (m - 1) 12 + 1
    let total := daysFromCivil yn mn d + days
    let c := civilFromDays total
    intToStr c.1 ++ ['-'] ++ padStart2 (intToStr c.2.1) ++ ['-'] ++ padStart2 (intToStr c.2.2)
  | _ => "NaN-NaN-NaN".data

end Physio

namespace Physio

/-! ## The backend operations (source file `functions/src/index.ts`).

The Firestore document store is modelled as an explicit `Store` value:
the singleton clinic configuration document, the `slotLocks` collection
(a marker document per claimed slot key) and the `appointments`
collection.  The clock collaborator `getTodayISO` is modelled by passing
its output `todayIso` as an argument, and the client-side
`collection("appointments").doc()` identifier minting by passing the
fresh identifier `freshId` as an argument. -/

/-- Error code `METHOD_NOT_ALLOWED` (status 405). -/
def METHOD_NOT_ALLOWED : String := "METHOD_NOT_ALLOWED"

/-- Error code `INVALID_DATE` (status 400). -/
def INVALID_DATE : String := "INVALID_DATE"

/-- Error code `INVALID_TIME` (status 400). -/
def INVALID_TIME : String := "INVALID_TIME"

/-- Error code `INVALID_NAME` (status 400). -/
def INVALID_NAME : String := "INVALID_NAME"

/-- Error code `INVALID_PHONE` (status 400). -/
def INVALID_PHONE : String := "INVALID_PHONE"

/-- Error code `DATE_OUT_OF_RANGE` (status 400). -/
def DATE_OUT_OF_RANGE : String := "DATE_OUT_OF_RANGE"

/-- Error code `INVALID_SLOT` (status 400). -/
def INVALID_SLOT : String := "INVALID_SLOT"

/-- Error code `SLOT_TAKEN` (status 409). -/
def SLOT_TAKEN : String := "SLOT_TAKEN"

/-- Error code `SERVER_ERROR` (status 500). -/
def SERVER_ERROR : String := "SERVER_ERROR"

/-- Source regular expression `^\d{4}-\d{2}-\d{2}$`. -/
def isValidDateIso (s : Str) : Bool :=
  match s with
  | [a, b, c, d, s1, e, f, s2, g, h] =>
    s1 = '-' && s2 = '-' && [a, b, c, d, e, f, g, h].all Char.isDigit
  | _ => false

/-- Source regular expression `^\d{2}:\d{2}$`. -/
def isValidTime (s : Str) : Bool :=
  match s with
  | [a, b, s1, c, d] => s1 = ':' && [a, b, c, d].all Char.isDigit
  | _ => false

/-- Character class `[0-9\s-]` of the phone pattern (the JavaScript `\s`
whitespace class, restricted to the whitespace characters this model
represents). -/
def isPhoneChar (c : Char) : Bool :=
  c.isDigit || c.isWhitespace || c = '-'

/-- Source regular expression `^\+?[0-9\s-]{7,15}$`. -/
def isValidPhone (s : Str) : Bool :=
  let rest := match s with
    | '+' :: r => r
    | r => r
  decide (7 ≤ rest.length) && decide (rest.length ≤ 15) && rest.all isPhoneChar

/-- Loop of `chunk`, made structural with fuel (one unit per emitted
group; `items.length` always suffices because every group is
non-empty). -/
def chunkAux {α : Type} : Nat → List α → Nat → List (List α)
  | 0, _, _ => []
  | _ + 1, [], _ => []
  | _ + 1, _ :: _, 0 => []
  | fuel + 1, a :: rest, size + 1 =>
    (a :: rest).take (size + 1) :: chunkAux fuel ((a :: rest).drop (size + 1)) (size + 1)

/-- Source `chunk`: slice `items` into consecutive groups of `size`.
The source `for (let i = 0; i < items.length; i += size)` never runs with
`size = 0` (the only call site passes `30`); the `size = 0` equation here
returns `[]` so that the function is total. -/
def chunk {α : Type} (items : List α) (size : Nat) : List (List α) :=
  chunkAux items.length items size

/-- Clinic configuration document (`config/clinic`).  `breaks` is an
optional field, defaulted to `[]` by the consumers (`config.breaks ?? []`). -/
structure ClinicConfig where
  slotMinutes : Int
  timezone : Str
  workHours : WorkHours
  breaks : Option (List BreakWindow)
  maxDaysAhead : Int
deriving DecidableEq, Repr

/-- An appointment document.  `id` is the Firestore document identifier
minted client-side by `collection("appointments").doc()`.  The
`createdAt` / `lastUpdatedAt` server-timestamp fields carry no logic and
are outside the model. -/
structure Appointment where
  id : Nat
  patientName : Str
  phone : Str
  reason : Str
  date : Str
  startTime : Str
  endTime : Str
  status : Str
  source : Str
  slotKey : Str
deriving DecidableEq, Repr

/-- The persistent store: configuration document, `slotLocks` keys
(reservation markers) and `appointments` documents. -/
structure Store where
  config : Option ClinicConfig
  locks : List Str
  appointments : List Appointment
deriving DecidableEq, Repr

/-- Status filter of the availability query:
`where("status", "in", ["booked", "completed"])`. -/
def isActive (status : Str) : Bool :=
  status = "booked".data || status = "completed".data

/-- The appointment query issued per chunk:
`where("slotKey", "in", group).where("status", "in", ["booked", "completed"])`. -/
def queryAppointments (s : Store) (group : List Str) : List Appointment :=
  s.appointments.filter (fun a => group.contains a.slotKey && isActive a.status)

/-- A slot annotated with the resolved `available` flag. -/
structure AnnotatedSlot where
  startTime : Str
  endTime : Str
  key : Str
  available : Bool
deriving DecidableEq, Repr

/-- One batched access to the store issued by the availability resolver:
either the multi-key `getAll` over lock references, or one
`appointments` membership query.  Each call records the keys it carries,
so that the per-call arity can be observed. -/
inductive StoreCall where
  | getAll (keys : List Str)
  | apptQuery (keys : List Str)
deriving DecidableEq, Repr

/-- Source `getSlotAvailability`, instrumented with the trace of batched
store calls it issues: one `getAll` over every lock reference (not
chunked in the source), then one appointment query per 30-key chunk of
the key set.  `lockedKeys` collects the keys whose lock document exists;
`bookedKeys` collects the `slotKey` fields of the active appointments
returned by the chunked queries; a slot is available iff its key is in
neither set. -/
def getSlotAvailabilityT (s : Store) (slots : List Slot) :
    List AnnotatedSlot × List StoreCall :=
  let slotKeys := slots.map (fun sl => sl.key)
  let lockedKeys := slotKeys.filter (fun k => s.locks.contains k)
  let groups := chunk slotKeys 30
  let bookedKeys := groups.foldl (fun acc g => acc ++ (queryAppointments s g).map (fun a => a.slotKey)) []
  (slots.map (fun sl =>
      { startTime := sl.startTime, endTime := sl.endTime, key := sl.key
        available := !lockedKeys.contains sl.key && !bookedKeys.contains sl.key }),
   StoreCall.getAll slotKeys :: groups.map StoreCall.apptQuery)

/-- Source `getSlotAvailability` (the resolved annotations; the call
trace of `getSlotAvailabilityT` is the instrumentation). -/
def getSlotAvailability (s : Store) (slots : List Slot) : List AnnotatedSlot :=
  (getSlotAvailabilityT s slots).1

/-- The availability resolver as §4.3 of the specification describes it:
marker existence and active-appointment membership are resolved for the
whole candidate key set at once (conceptually unbounded single queries,
chunking transparent).  Stated for comparison with the source resolver. -/
def getSlotAvailabilitySpec (s : Store) (slots : List Slot) : List AnnotatedSlot :=
  slots.map (fun sl =>
    { startTime := sl.startTime, endTime := sl.endTime, key := sl.key
      available := !s.locks.contains sl.key
          && !s.appointments.any (fun a => a.slotKey == sl.key && isActive a.status) })

/-- Body of the `createAppointment` request. -/
structure CreateBody where
  dateIso : Option Str
  startTime : Option Str
  patientName : Option Str
  phone : Option Str
  reason : Option Str
deriving DecidableEq, Repr

/-- Result of the `getAvailability` operation: the JSON payload or
`sendError`'s status code and error code. -/
inductive AvailResult where
  | ok (dateIso : Str) (slotMinutes : Int) (slots : List AnnotatedSlot)
  | err (status : Nat) (code : String)
deriving DecidableEq, Repr

/-- Result of the `createAppointment` operation: the JSON payload or
`sendError`'s status code and error code. -/
inductive CreateResult where
  | ok (appointmentId : Nat) (slotKey : Str)
  | err (status : Nat) (code : String)
deriving DecidableEq, Repr

/-- The HTTP method string `"POST"`. -/
def postMethod : Str := "POST".data

/-- Source `getAvailability` handler.  `todayIso` is the output of the
clock collaborator `getTodayISO(config.timezone)`.  Reads the store, never
writes it. -/
def getAvailability (method : Str) (bodyDateIso : Option Str) (todayIso : Str)
    (s : Store) : AvailResult :=
  if method ≠ postMethod then .err 405 METHOD_NOT_ALLOWED
  else match bodyDateIso with
  | none => .err 400 INVALID_DATE
  | some dateIso =>
    if dateIso.isEmpty || !isValidDateIso dateIso then .err 400 INVALID_DATE
    else match s.config with
    | none => .err 500 SERVER_ERROR
    | some config =>
      let lastAllowed := addDaysIso todayIso config.maxDaysAhead
      if strLt dateIso todayIso || strLt lastAllowed dateIso then .err 400 DATE_OUT_OF_RANGE
      else
        let slots := generateSlots
          { dateIso := dateIso, workHours := config.workHours
            breaks := config.breaks.getD [], slotMinutes := config.slotMinutes }
        .ok dateIso config.slotMinutes (getSlotAvailability s slots)

/-- Source `createAppointment` handler.  The validation chain mirrors the
source order (`!field` catches both a missing field and the empty string;
a non-string field value is outside this model, so the
`typeof reason !== "string"` branch cannot fire).  The Firestore
transaction reads the lock document and either aborts with `SLOT_TAKEN`
(no buffered write is committed, the store is unchanged) or commits the
marker write and the appointment write together. -/
def createAppointment (method : Str) (body : CreateBody) (todayIso : Str)
    (freshId : Nat) (s : Store) : CreateResult × Store :=
  if method ≠ postMethod then (.err 405 METHOD_NOT_ALLOWED, s)
  else match body.dateIso with
  | none => (.err 400 INVALID_DATE, s)
  | some dateIso =>
    if dateIso.isEmpty || !isValidDateIso dateIso then (.err 400 INVALID_DATE, s)
    else match body.startTime with
    | none => (.err 400 INVALID_TIME, s)
    | some startTime =>
      if startTime.isEmpty || !isValidTime startTime then (.err 400 INVALID_TIME, s)
      else match body.patientName with
      | none => (.err 400 INVALID_NAME, s)
      | some patientName =>
        if patientName.isEmpty || decide ((trimStr patientName).length < 2) then (.err 400 INVALID_NAME, s)
        else match body.phone with
        | none => (.err 400 INVALID_PHONE, s)
        | some phone =>
          if phone.isEmpty || !isValidPhone phone then (.err 400 INVALID_PHONE, s)
          else match s.config with
          | none => (.err 500 SERVER_ERROR, s)
          | some config =>
            let lastAllowed := addDaysIso todayIso config.maxDaysAhead
            if strLt dateIso todayIso || strLt lastAllowed dateIso then (.err 400 DATE_OUT_OF_RANGE, s)
            else
              let slots := generateSlots
                { dateIso := dateIso, workHours := config.workHours
                  breaks := config.breaks.getD [], slotMinutes := config.slotMinutes }
              match slots.find? (fun sl => sl.startTime == startTime) with
              | none => (.err 400 INVALID_SLOT, s)
              | some chosenSlot =>
                let slotKey := createSlotKey dateIso startTime
                if s.locks.contains slotKey then (.err 409 SLOT_TAKEN, s)
                else
                  (.ok freshId slotKey,
                   { s with
                     locks := slotKey :: s.locks
                     appointments :=
                       { id := freshId
                         patientName := trimStr patientName
                         phone := trimStr phone
                         reason := (body.reason.map trimStr).getD []
                         date := dateIso
                         startTime := startTime
                         endTime := chosenSlot.endTime
                         status := "booked".data
                         source := "patient".data
                         slotKey := slotKey } :: s.appointments })

/-! ## Derived notions used to state the claims. -/

/-- The slot with bounds `[st, e)` in minutes, as `generateSlots` emits it. -/
def mkSlot (dateIso : Str) (st e : Int) : Slot :=
  { startTime := formatMinutesToTime st
    endTime := formatMinutesToTime e
    key := dateIso ++ ['_'] ++ formatMinutesToTime st }

/-- Number of iterations of the slot loop from `start`:
the number of full `slotMinutes` steps that fit before `workEnd`. -/
def slotIters (workEnd start slotMinutes : Int) : Nat :=
  (workEnd - start).toNat / slotMinutes.toNat

/-- The `k`-th candidate of the slot grid: kept unless some break
overlaps it. -/
def gridEntry (dateIso : Str) (breakWindows : List (Option Int × Option Int))
    (slotMinutes workStart : Int) (k : Nat) : Option Slot :=
  let st := workStart + (k : Int) * slotMinutes
  let e := st + slotMinutes
  if breakWindows.any (fun bw => hasOverlap (some st) (some e) bw.1 bw.2) then none
  else some (mkSlot dateIso st e)

/-- The parsed break windows of a parameter record. -/
def parsedBreaks (p : GenerateSlotsParams) : List (Option Int × Option Int) :=
  p.breaks.map (fun bw => (parseTimeToMinutes bw.start, parseTimeToMinutes bw.finish))

/-- The generator input that both handlers derive from the clinic
configuration for a given date. -/
def slotsFor (config : ClinicConfig) (dateIso : Str) : GenerateSlotsParams :=
  { dateIso := dateIso, workHours := config.workHours
    breaks := config.breaks.getD [], slotMinutes := config.slotMinutes }

/-- The booking-window check of both handlers succeeds
(`dateISO < todayISO || dateISO > lastAllowed` is false). -/
def windowOk (config : ClinicConfig) (todayIso dateIso : Str) : Bool :=
  !(strLt dateIso todayIso || strLt (addDaysIso todayIso config.maxDaysAhead) dateIso)

/-- The field validations of `createAppointment` succeed with date `d` and
start time `t` (independent of the store and of the booking window). -/
def fieldsOk (body : CreateBody) (d t : Str) : Bool :=
  body.dateIso == some d && !d.isEmpty && isValidDateIso d &&
  body.startTime == some t && !t.isEmpty && isValidTime t &&
  (match body.patientName with
   | some nm => !nm.isEmpty && decide (2 ≤ (trimStr nm).length)
   | none => false) &&
  (match body.phone with
   | some ph => !ph.isEmpty && isValidPhone ph
   | none => false)

/-- Serialized execution of a batch of `createAppointment` calls against
one store.  The store's transactions are serializable, so any concurrent
execution of the reservation transactions is equivalent to running them
in some serial order; the list order is that serialization order. -/
def runCreates (todayIso : Str) (reqs : List (CreateBody × Nat)) (s : Store) :
    List CreateResult × Store :=
  match reqs with
  | [] => ([], s)
  | (body, freshId) :: rest =>
    let first := createAppointment postMethod body todayIso freshId s
    let restOut := runCreates todayIso rest first.2
    (first.1 :: restOut.1, restOut.2)

/-- Number of appointment records for `key` with status in
`{booked, completed}`. -/
def countActive (s : Store) (key : Str) : Nat :=
  (s.appointments.filter (fun a => a.slotKey == key && isActive a.status)).length

/-- Store states reachable by the core: an initial store holds only the
configuration document, and every step is one `createAppointment` call
(the only core operation that writes).  Firestore's `doc()` mints a fresh
document identifier, so a step's identifier differs from every stored
one. -/
inductive Reachable : Store → Prop where
  | init (config : Option ClinicConfig) :
      Reachable { config := config, locks := [], appointments := [] }
  | step (method : Str) (body : CreateBody) (todayIso : Str) (freshId : Nat)
      (s : Store) : Reachable s → (∀ a ∈ s.appointments, a.id ≠ freshId) →
      Reachable (createAppointment method body todayIso freshId s).2

/-- The coupling invariant of the reservation protocol: every appointment
has its marker, every marker has an appointment, appointment slot keys
are pairwise distinct, and markers are pairwise distinct. -/
def StoreInv (s : Store) : Prop :=
  (∀ a ∈ s.appointments, a.slotKey ∈ s.locks) ∧
  (∀ k ∈ s.locks, ∃ a ∈ s.appointments, a.slotKey = k) ∧
  (s.appointments.map (fun a => a.slotKey)).Nodup ∧
  s.locks.Nodup

/-- The appointment document that a successful reservation transaction
writes (the trimmed contact fields, the derived slot bounds, status
`booked`, source `patient`, and the slot key). -/
def bookedAppointment (freshId : Nat) (body : CreateBody) (d t : Str) (chosenSlot : Slot) :
    Appointment :=
  { id := freshId
    patientName := trimStr (body.patientName.getD [])
    phone := trimStr (body.phone.getD [])
    reason := (body.reason.map trimStr).getD []
    date := d
    startTime := t
    endTime := chosenSlot.endTime
    status := "booked".data
    source := "patient".data
    slotKey := createSlotKey d t }

/-- Discriminator for the success payload of `getAvailability`. -/
def AvailResult.isOk : AvailResult → Bool
  | .ok _ _ _ => true
  | .err _ _ => false

/-- Example clinic configuration for the concrete instances: 15-minute
slots, working hours 09:00-17:00, no breaks, 30-day booking horizon. -/
def cfg0 : ClinicConfig :=
  { slotMinutes := 15
    timezone := "UTC".data
    workHours := { start := "09:00".data, finish := "17:00".data }
    breaks := none
    maxDaysAhead := 30 }

/-- A fresh store holding only the example configuration. -/
def store0 : Store := { config := some cfg0, locks := [], appointments := [] }

/-- Example clock output. -/
def today0 : Str := "2024-01-01".data

/-- Example booking date inside the window. -/
def date0 : Str := "2024-01-10".data

/-- A fully valid booking request for `date0` at 09:15. -/
def body0 : CreateBody :=
  { dateIso := some date0
    startTime := some ( "09:15".data)
    patientName := some ( "Jane Doe".data)
    phone := some ( "555-123-4567".data)
    reason := none }

/-- The same request with the off-grid start time 09:05. -/
def body0905 : CreateBody := { body0 with startTime := some ( "09:05".data) }

/-- Store in which the 09:15 slot of `date0` is already claimed. -/
def lockStore : Store :=
  { config := some cfg0, locks := [createSlotKey date0 ( "09:15".data)], appointments := [] }

/-- Configuration producing exactly 31 slots (09:00-16:45 at 15 minutes),
one more than the 30-key chunk size. -/
def cfg31 : ClinicConfig :=
  { cfg0 with workHours := { start := "09:00".data, finish := "16:45".data } }

/-- Store holding the 31-slot configuration. -/
def store31 : Store := { config := some cfg31, locks := [], appointments := [] }

/-- The 31 candidate slots of `cfg31` on `date0`. -/
def slots31 : List Slot := generateSlots (slotsFor cfg31 date0)

/-- Generator input with a break 09:30-09:45 whose start coincides with the
end of the first 30-minute slot. -/
def breakParams : GenerateSlotsParams :=
  { dateIso := date0
    workHours := { start := "09:00".data, finish := "10:00".data }
    breaks := [{ start := "09:30".data, finish := "09:45".data }]
    slotMinutes := 30 }

/-- Small break-free generator input (09:00-10:00 at 15 minutes). -/
def smallParams : GenerateSlotsParams :=
  { dateIso := date0
    workHours := { start := "09:00".data, finish := "10:00".data }
    breaks := []
    slotMinutes := 15 }

/-! ## Lemmas about the string and number primitives. -/

theorem digitChar_isDigit {d : Nat} (h : d < 10) : (digitChar d).isDigit = true := by
  interval_cases d <;> decide

theorem digitChar_toNat {d : Nat} (h : d < 10) : (digitChar d).toNat = 48 + d := by
  interval_cases d <;> decide

theorem natDigitsAux_acc : ∀ (fuel n : Nat) (acc : Str), n < fuel →
    natDigitsAux fuel n acc = natDigitsAux fuel n [] ++ acc := by
  intro fuel
  induction fuel with
  | zero => intro n acc h; omega
  | succ fuel ih =>
    intro n acc h
    rw [natDigitsAux, natDigitsAux]
    by_cases h10 : n < 10
    · rw [if_pos h10, if_pos h10]
      rfl
    · rw [if_neg h10, if_neg h10]
      have hlt : n / 10 < fuel := by
        have := Nat.div_lt_self (show 0 < n by omega) (show 1 < 10 by omega)
        omega
      rw [ih (n / 10) (digitChar (n % 10) :: acc) hlt, ih (n / 10) [digitChar (n % 10)] hlt]
      simp

theorem natDigitsAux_fuel : ∀ (f1 f2 n : Nat), n < f1 → n < f2 →
    natDigitsAux f1 n [] = natDigitsAux f2 n [] := by
  intro f1
  induction f1 with
  | zero => intro f2 n h1 h2; omega
  | succ f1 ih =>
    intro f2 n h1 h2
    cases f2 with
    | zero => omega
    | succ f2 =>
      rw [natDigitsAux, natDigitsAux]
      by_cases h10 : n < 10
      · rw [if_pos h10, if_pos h10]
      · rw [if_neg h10, if_neg h10]
        have hd := Nat.div_lt_self (show 0 < n by omega) (show 1 < 10 by omega)
        have hlt1 : n / 10 < f1 := by omega
        have hlt2 : n / 10 < f2 := by omega
        rw [natDigitsAux_acc f1 _ _ hlt1, natDigitsAux_acc f2 _ _ hlt2, ih f2 (n / 10) hlt1 hlt2]

theorem natDigits_eq (n : Nat) : natDigits n =
    if n < 10 then [digitChar n] else natDigits (n / 10) ++ [digitChar (n % 10)] := by
  rw [natDigits, natDigitsAux]
  by_cases h10 : n < 10
  · rw [if_pos h10, if_pos h10]
  · rw [if_neg h10, if_neg h10]
    have hd := Nat.div_lt_self (show 0 < n by omega) (show 1 < 10 by omega)
    rw [natDigitsAux_acc n _ _ (by omega), natDigits,
      natDigitsAux_fuel n (n / 10 + 1) (n / 10) (by omega) (by omega)]

theorem natDigits_ne_nil (n : Nat) : natDigits n ≠ [] := by
  rw [natDigits_eq]; split <;> simp

theorem natDigits_all_digit (n : Nat) : (natDigits n).all Char.isDigit = true := by
  induction n using Nat.strong_induction_on with
  | _ n ih =>
    rw [natDigits_eq]
    by_cases h : n < 10
    · simp [h, digitChar_isDigit h]
    · have hrec := ih (n / 10) (Nat.div_lt_self (by omega) (by omega))
      rw [if_neg h]
      simp only [List.all_append, hrec, Bool.true_and, List.all_cons, List.all_nil]
      simp [digitChar_isDigit (Nat.mod_lt n (by omega))]

theorem digitsVal_append_singleton (s : Str) (c : Char) :
    digitsVal (s ++ [c]) = digitsVal s * 10 + (c.toNat - 48) := by
  simp [digitsVal, List.foldl_append]

theorem digitsVal_natDigits (n : Nat) : digitsVal (natDigits n) = n := by
  induction n using Nat.strong_induction_on with
  | _ n ih =>
    rw [natDigits_eq]
    by_cases h : n < 10
    · simp [h, digitsVal, digitChar_toNat h]
    · have hrec := ih (n / 10) (Nat.div_lt_self (by omega) (by omega))
      rw [if_neg h, digitsVal_append_singleton, hrec,
        digitChar_toNat (Nat.mod_lt n (by omega))]
      omega

theorem isDigit_toNat {c : Char} (h : c.isDigit = true) : 48 ≤ c.toNat ∧ c.toNat ≤ 57 := by
  rw [Char.isDigit, Bool.and_eq_true, decide_eq_true_eq, decide_eq_true_eq] at h
  obtain ⟨h1, h2⟩ := h
  exact ⟨h1, h2⟩

theorem digit_not_jsWhiteSpace {c : Char} (h : c.isDigit = true) :
    jsWhiteSpace c = false := by
  obtain ⟨h1, h2⟩ := isDigit_toNat h
  rw [jsWhiteSpace]
  simp only [Bool.or_eq_false_iff, Bool.and_eq_false_iff, decide_eq_false_iff_not]
  omega

theorem dropWhile_jsWhiteSpace_digits {t : Str} (h : t.all Char.isDigit = true) :
    t.dropWhile jsWhiteSpace = t := by
  cases t with
  | nil => rfl
  | cons c cs =>
    rw [List.all_cons, Bool.and_eq_true] at h
    rw [List.dropWhile_cons, digit_not_jsWhiteSpace h.1]
    simp

theorem jsTrim_digits {t : Str} (h : t.all Char.isDigit = true) : jsTrim t = t := by
  rw [jsTrim, dropWhile_jsWhiteSpace_digits h,
    dropWhile_jsWhiteSpace_digits (by rw [List.all_reverse]; exact h), List.reverse_reverse]

theorem jsNumber_natDigits (n : Nat) : jsNumber (natDigits n) = some ((n : Int)) := by
  rw [jsNumber]
  rw [jsTrim_digits (natDigits_all_digit n)]
  simp [List.isEmpty_iff, natDigits_ne_nil, natDigits_all_digit, digitsVal_natDigits]

theorem digitsVal_cons_zero (s : Str) : digitsVal ('0' :: s) = digitsVal s := by
  have h : (0 : Nat) * 10 + ('0'.toNat - 48) = 0 := by decide
  simp only [digitsVal, List.foldl_cons, h]

theorem digitsVal_replicate_zero (k : Nat) (s : Str) :
    digitsVal (List.replicate k '0' ++ s) = digitsVal s := by
  induction k with
  | zero => simp
  | succ k ih => rw [List.replicate_succ, List.cons_append, digitsVal_cons_zero, ih]

theorem replicate_zero_all_digit (k : Nat) :
    (List.replicate k '0').all Char.isDigit = true := by
  rw [List.all_eq_true]
  intro c hc
  rw [List.eq_of_mem_replicate hc]
  decide

theorem padStart2_all_digit {s : Str} (h : s.all Char.isDigit = true) :
    (padStart2 s).all Char.isDigit = true := by
  rw [padStart2, List.all_append, replicate_zero_all_digit, h]
  rfl

theorem padStart2_ne_nil {s : Str} (h : s ≠ []) : padStart2 s ≠ [] := by
  rw [padStart2]
  intro e
  rcases List.append_eq_nil.mp e with ⟨-, h2⟩
  exact h h2

theorem jsNumber_padStart2_natDigits (n : Nat) :
    jsNumber (padStart2 (natDigits n)) = some ((n : Int)) := by
  rw [jsNumber]
  rw [jsTrim_digits (padStart2_all_digit (natDigits_all_digit n))]
  rw [if_neg, if_pos (padStart2_all_digit (natDigits_all_digit n))]
  · rw [padStart2, digitsVal_replicate_zero, digitsVal_natDigits]
  · simp [List.isEmpty_iff, padStart2_ne_nil (natDigits_ne_nil n)]

theorem not_mem_of_all_digit {s : Str} (h : s.all Char.isDigit = true) {c : Char}
    (hc : c.isDigit = false) : c ∉ s := by
  intro hm
  rw [List.all_eq_true] at h
  have := h c hm
  rw [hc] at this
  exact Bool.false_ne_true this

theorem splitOnChar_ne_nil (sep : Char) (s : Str) : splitOnChar sep s ≠ [] := by
  cases s with
  | nil => simp [splitOnChar]
  | cons c cs =>
    rw [splitOnChar]
    split
    · simp
    · split <;> simp

theorem splitOnChar_not_mem {sep : Char} : ∀ {s : Str}, sep ∉ s → splitOnChar sep s = [s]
  | [], _ => rfl
  | c :: cs, h => by
    simp only [List.mem_cons, not_or] at h
    have hc : ¬c = sep := fun e => h.1 e.symm
    rw [splitOnChar, splitOnChar_not_mem h.2]
    simp [hc]

theorem splitOnChar_append {sep : Char} :
    ∀ {a : Str} (b : Str), sep ∉ a →
      splitOnChar sep (a ++ sep :: b) = a :: splitOnChar sep b
  | [], b, _ => by
    rw [List.nil_append, splitOnChar]
    cases h : splitOnChar sep b with
    | nil => exact absurd h (splitOnChar_ne_nil sep b)
    | cons x xs => simp
  | c :: a', b, h => by
    simp only [List.mem_cons, not_or] at h
    have hc : ¬c = sep := fun e => h.1 e.symm
    rw [List.cons_append, splitOnChar, splitOnChar_append b h.2]
    simp [hc]

theorem intToStr_nonneg {v : Int} (hv : 0 ≤ v) : intToStr v = natDigits v.toNat := by
  rw [intToStr, if_neg (by omega)]

theorem parseTimeToMinutes_format {v : Int} (hv : 0 ≤ v) :
    parseTimeToMinutes (formatMinutesToTime v) = some v := by
  have hdiv : Int.fdiv v 60 = v / 60 := Int.fdiv_eq_ediv v (by omega)
  have hmod : Int.tmod v 60 = v % 60 := Int.tmod_eq_emod hv (by omega)
  have hd0 : 0 ≤ v / 60 := Int.ediv_nonneg hv (by omega)
  have hm0 : 0 ≤ v % 60 := Int.emod_nonneg v (by omega)
  rw [formatMinutesToTime]
  simp only [hdiv, hmod, intToStr_nonneg hd0, intToStr_nonneg hm0]
  have hsplit :
      splitOnChar ':' (padStart2 (natDigits (v / 60).toNat) ++ [':'] ++ padStart2 (natDigits (v % 60).toNat)) =
        [padStart2 (natDigits (v / 60).toNat), padStart2 (natDigits (v % 60).toNat)] := by
    rw [List.append_assoc, List.singleton_append,
      splitOnChar_append _ (not_mem_of_all_digit (padStart2_all_digit (natDigits_all_digit _)) (by decide)),
      splitOnChar_not_mem (not_mem_of_all_digit (padStart2_all_digit (natDigits_all_digit _)) (by decide))]
  simp only [parseTimeToMinutes, hsplit, jsNumber_padStart2_natDigits]
  congr 1
  rw [Int.toNat_of_nonneg hd0, Int.toNat_of_nonneg hm0]
  omega

theorem formatMinutesToTime_inj {a b : Int} (ha : 0 ≤ a) (hb : 0 ≤ b)
    (h : formatMinutesToTime a = formatMinutesToTime b) : a = b := by
  have h1 := parseTimeToMinutes_format ha
  rw [h, parseTimeToMinutes_format hb] at h1
  exact (Option.some_inj.mp h1).symm

theorem jsNumber_nonneg {s : Str} {v : Int} (h : jsNumber s = some v) : 0 ≤ v := by
  rw [jsNumber] at h
  split at h
  · injection h with h2
    omega
  · split at h
    · injection h with h2
      omega
    · exact absurd h (by simp)

theorem jle_format_format {a b : Int} (ha : 0 ≤ a) (hb : 0 ≤ b) :
    jle (parseTimeToMinutes (formatMinutesToTime a)) (parseTimeToMinutes (formatMinutesToTime b)) =
      decide (a ≤ b) := by
  rw [parseTimeToMinutes_format ha, parseTimeToMinutes_format hb, jle]

theorem parseTimeToMinutes_nonneg {s : Str} {v : Int}
    (h : parseTimeToMinutes s = some v) : 0 ≤ v := by
  rw [parseTimeToMinutes] at h
  split at h
  · exact absurd h (by simp)
  · exact absurd h (by simp)
  · rename_i hcomp mcomp rest
    split at h
    · rename_i hv mv hveq mveq
      have h1 := jsNumber_nonneg hveq
      have h2 := jsNumber_nonneg mveq
      have := Option.some_inj.mp h
      omega
    · exact absurd h (by simp)

/-! ## The closed form of the slot loop. -/

theorem slotIters_pos_iff {we s m : Int} (hm : 0 < m) :
    s + m ≤ we ↔ 0 < slotIters we s m := by
  rw [slotIters, Nat.lt_iff_add_one_le, Nat.zero_add,
    Nat.one_le_div_iff (show 0 < m.toNat by omega)]
  omega

theorem slotIters_step {we s m : Int} (hm : 0 < m) (h : s + m ≤ we) :
    slotIters we s m = slotIters we (s + m) m + 1 := by
  rw [slotIters, slotIters]
  have h1 : (we - s).toNat = (we - (s + m)).toNat + m.toNat := by omega
  rw [h1, Nat.add_div_right _ (by omega)]

theorem gridEntry_succ (dateIso : Str) (B : List (Option Int × Option Int))
    (m s : Int) (k : Nat) :
    gridEntry dateIso B m s (k + 1) = gridEntry dateIso B m (s + m) k := by
  unfold gridEntry
  have h1 : s + ((k : Int) + 1) * m = s + m + (k : Int) * m := by ring
  push_cast
  rw [h1]

theorem slotLoop_eq (dateIso : Str) (B : List (Option Int × Option Int))
    {m : Int} (we : Int) (hm : 0 < m) :
    ∀ (fuel : Nat) (s : Int), slotIters we s m ≤ fuel →
      slotLoop dateIso B m we fuel s =
        (List.range (slotIters we s m)).filterMap (gridEntry dateIso B m s) := by
  intro fuel
  induction fuel with
  | zero =>
    intro s hs
    have hz : slotIters we s m = 0 := by omega
    rw [hz, slotLoop]
    rfl
  | succ fuel ih =>
    intro s hs
    by_cases h : s + m ≤ we
    · have hstep := slotIters_step hm h
      have hrec := ih (s + m) (by omega)
      have hzero : gridEntry dateIso B m s 0 =
          if B.any (fun bw => hasOverlap (some s) (some (s + m)) bw.1 bw.2) then none
          else some (mkSlot dateIso s (s + m)) := by
        unfold gridEntry
        simp only [Nat.cast_zero, zero_mul, add_zero]
      have hsucc : (gridEntry dateIso B m s ∘ Nat.succ) = gridEntry dateIso B m (s + m) := by
        funext k
        exact gridEntry_succ dateIso B m s k
      rw [slotLoop, if_pos h]
      dsimp only
      rw [hrec, hstep, List.range_succ_eq_map, List.filterMap_cons,
        List.filterMap_map, hsucc, hzero]
      by_cases hb : B.any (fun bw => hasOverlap (some s) (some (s + m)) bw.1 bw.2) = true
      · rw [if_pos hb, if_pos hb]
      · rw [if_neg hb, if_neg hb]
        rfl
    · rw [slotLoop, if_neg h]
      have hz : slotIters we s m = 0 := by
        by_contra hnz
        exact h ((slotIters_pos_iff hm).mpr (by omega))
      rw [hz]
      rfl

theorem generateSlots_eq {p : GenerateSlotsParams} {ws we : Int}
    (hs : parseTimeToMinutes p.workHours.start = some ws)
    (he : parseTimeToMinutes p.workHours.finish = some we)
    (hm : 0 < p.slotMinutes) :
    generateSlots p = (List.range (slotIters we ws p.slotMinutes)).filterMap
      (gridEntry p.dateIso (parsedBreaks p) p.slotMinutes ws) := by
  rw [generateSlots, dif_neg (by omega)]
  simp only [hs, he]
  apply slotLoop_eq p.dateIso _ we (by omega)
  rw [slotIters]
  have := Nat.div_le_self (we - ws).toNat p.slotMinutes.toNat
  omega

theorem generateSlots_nonpos {p : GenerateSlotsParams} (hm : p.slotMinutes ≤ 0) :
    generateSlots p = [] := by
  rw [generateSlots, dif_pos hm]

theorem generateSlots_degenerate {p : GenerateSlotsParams} {ws we : Int}
    (hs : parseTimeToMinutes p.workHours.start = some ws)
    (he : parseTimeToMinutes p.workHours.finish = some we)
    (hwe : we ≤ ws) : generateSlots p = [] := by
  by_cases hm : p.slotMinutes ≤ 0
  · exact generateSlots_nonpos hm
  · rw [generateSlots_eq hs he (by omega)]
    have hz : slotIters we ws p.slotMinutes = 0 := by
      rw [slotIters]
      rw [Nat.div_eq_of_lt]
      omega
    rw [hz]
    rfl

theorem mem_generateSlots {p : GenerateSlotsParams} {ws we : Int}
    (hs : parseTimeToMinutes p.workHours.start = some ws)
    (he : parseTimeToMinutes p.workHours.finish = some we)
    (hm : 0 < p.slotMinutes) {sl : Slot} :
    sl ∈ generateSlots p ↔
      ∃ k : Nat, (k : Int) * p.slotMinutes + p.slotMinutes ≤ we - ws ∧
        gridEntry p.dateIso (parsedBreaks p) p.slotMinutes ws k = some sl := by
  have hmem : ∀ k : Nat, k ∈ List.range (slotIters we ws p.slotMinutes) ↔
      (k : Int) * p.slotMinutes + p.slotMinutes ≤ we - ws := by
    intro k
    rw [List.mem_range, slotIters, Nat.lt_iff_add_one_le,
      Nat.le_div_iff_mul_le (show 0 < p.slotMinutes.toNat by omega)]
    constructor
    · intro hk
      have h3 : 1 ≤ (we - ws).toNat :=
        le_trans (Nat.mul_pos (by omega) (show 0 < p.slotMinutes.toNat by omega)) hk
      have hw : (0 : Int) ≤ we - ws := by omega
      have h4 : (((k + 1) * p.slotMinutes.toNat : Nat) : Int) ≤ (((we - ws).toNat : Nat) : Int) := by
        exact_mod_cast hk
      rw [Nat.cast_mul, Int.toNat_of_nonneg hw, Int.toNat_of_nonneg (le_of_lt hm)] at h4
      push_cast at h4
      nlinarith [h4]
    · intro hk
      have hkm : (0 : Int) ≤ (k : Int) * p.slotMinutes :=
        mul_nonneg (Int.natCast_nonneg k) (le_of_lt hm)
      have hw : (0 : Int) ≤ we - ws := by omega
      have h4 : (((k + 1) * p.slotMinutes.toNat : Nat) : Int) ≤ (((we - ws).toNat : Nat) : Int) := by
        rw [Nat.cast_mul, Int.toNat_of_nonneg hw, Int.toNat_of_nonneg (le_of_lt hm)]
        push_cast
        nlinarith [hk]
      exact_mod_cast h4
  rw [generateSlots_eq hs he hm, List.mem_filterMap]
  constructor
  · rintro ⟨k, hk, hke⟩
    exact ⟨k, (hmem k).mp hk, hke⟩
  · rintro ⟨k, hk, hke⟩
    exact ⟨k, (hmem k).mpr hk, hke⟩

theorem gridEntry_eq_some {dateIso : Str} {B : List (Option Int × Option Int)}
    {m ws : Int} {k : Nat} {sl : Slot}
    (h : gridEntry dateIso B m ws k = some sl) :
    (B.any (fun bw => hasOverlap (some (ws + (k : Int) * m)) (some (ws + (k : Int) * m + m)) bw.1 bw.2)) = false ∧
      sl = mkSlot dateIso (ws + (k : Int) * m) (ws + (k : Int) * m + m) := by
  unfold gridEntry at h
  dsimp only at h
  split at h
  · exact absurd h (by simp)
  · rename_i hb
    exact ⟨by simpa using hb, (Option.some_inj.mp h).symm⟩

theorem generateSlots_structure {p : GenerateSlotsParams} {ws we : Int}
    (hs : parseTimeToMinutes p.workHours.start = some ws)
    (he : parseTimeToMinutes p.workHours.finish = some we)
    (hm : 0 < p.slotMinutes) {sl : Slot} (hmem : sl ∈ generateSlots p) :
    ∃ st : Int, 0 ≤ st ∧ st + p.slotMinutes ≤ we ∧
      sl = mkSlot p.dateIso st (st + p.slotMinutes) := by
  rw [mem_generateSlots hs he hm] at hmem
  obtain ⟨k, hk, hke⟩ := hmem
  obtain ⟨-, hsl⟩ := gridEntry_eq_some hke
  have hws : 0 ≤ ws := parseTimeToMinutes_nonneg hs
  have hkm : (0 : Int) ≤ (k : Int) * p.slotMinutes :=
    mul_nonneg (Int.natCast_nonneg k) (le_of_lt hm)
  exact ⟨ws + (k : Int) * p.slotMinutes, by omega, by omega, hsl⟩

theorem generateSlots_pairwise {p : GenerateSlotsParams} {ws we : Int}
    (hs : parseTimeToMinutes p.workHours.start = some ws)
    (he : parseTimeToMinutes p.workHours.finish = some we)
    (hm : 0 < p.slotMinutes) :
    (generateSlots p).Pairwise
      (fun a b => jle (parseTimeToMinutes a.endTime) (parseTimeToMinutes b.startTime) = true) := by
  rw [generateSlots_eq hs he hm, List.pairwise_filterMap]
  have hws : 0 ≤ ws := parseTimeToMinutes_nonneg hs
  apply List.Pairwise.imp ?_ (List.pairwise_lt_range _)
  intro k k' hkk
  intro a ha b hb
  rw [Option.mem_def] at ha hb
  obtain ⟨-, hae⟩ := gridEntry_eq_some ha
  obtain ⟨-, hbe⟩ := gridEntry_eq_some hb
  subst hae hbe
  have h1 : (0 : Int) ≤ ws + (k : Int) * p.slotMinutes + p.slotMinutes := by
    have := mul_nonneg (Int.natCast_nonneg k) (le_of_lt hm)
    omega
  have h2 : (0 : Int) ≤ ws + (k' : Int) * p.slotMinutes := by
    have := mul_nonneg (Int.natCast_nonneg k') (le_of_lt hm)
    omega
  rw [mkSlot, mkSlot]
  rw [jle_format_format h1 h2]
  have hm1 : ((k : Int) + 1) * p.slotMinutes ≤ (k' : Int) * p.slotMinutes := by
    apply mul_le_mul_of_nonneg_right _ (le_of_lt hm)
    exact_mod_cast hkk
  simp only [decide_eq_true_eq]
  nlinarith [hm1]

/-! ## Lexicographic order on strings. -/

theorem charEq_of_toNat_eq {a b : Char} (h : a.toNat = b.toNat) : a = b :=
  Char.ext (UInt32.ext h)

theorem strLt_eq_false_iff : ∀ a b : Str, strLt a b = false ↔ strLe b a = true
  | [], [] => by simp [strLt, strLe]
  | [], b :: bs => by simp [strLt, strLe]
  | a :: as, [] => by simp [strLt, strLe]
  | a :: as, b :: bs => by
    have ih := strLt_eq_false_iff as bs
    rcases Nat.lt_trichotomy a.toNat b.toNat with hab | heq | hba
    · have hne : ¬b = a := fun e => by rw [e] at hab; omega
      have hne2 : ¬a = b := fun e => by rw [e] at hab; omega
      have hnlt : ¬b.toNat < a.toNat := by omega
      simp [strLt, strLe, hab, hne, hne2, hnlt]
    · have heq2 : a = b := charEq_of_toNat_eq heq
      subst heq2
      have l1 : strLt (a :: as) (a :: bs) = strLt as bs := by
        simp [strLt, Nat.lt_irrefl]
      have l2 : strLt (a :: bs) (a :: as) = strLt bs as := by
        simp [strLt, Nat.lt_irrefl]
      rw [strLe, l1, l2]
      rw [strLe] at ih
      rw [ih]
      simp only [Bool.or_eq_true, decide_eq_true_eq, List.cons.injEq, true_and]
    · have hne : ¬a = b := fun e => by rw [e] at hba; omega
      simp [strLt, strLe, hba, hne]
      omega

/-! ## Chunking lemmas. -/

theorem chunkAux_fuel {α : Type} : ∀ (f1 f2 : Nat) (items : List α) (size : Nat),
    items.length ≤ f1 → items.length ≤ f2 → chunkAux f1 items size = chunkAux f2 items size := by
  intro f1
  induction f1 with
  | zero =>
    intro f2 items size h1 h2
    have : items = [] := List.length_eq_zero.mp (by omega)
    subst this
    cases f2 <;> rfl
  | succ f1 ih =>
    intro f2 items size h1 h2
    cases items with
    | nil => cases f2 <;> rfl
    | cons a rest =>
      cases f2 with
      | zero => simp at h2
      | succ f2 =>
        cases size with
        | zero => rfl
        | succ size =>
          rw [chunkAux, chunkAux]
          congr 1
          apply ih
          · simp only [List.drop_succ_cons, List.length_drop]
            simp only [List.length_cons] at h1
            omega
          · simp only [List.drop_succ_cons, List.length_drop]
            simp only [List.length_cons] at h2
            omega

theorem chunk_cons_eq {α : Type} (a : α) (rest : List α) (sz : Nat) :
    chunk (a :: rest) (sz + 1) =
      (a :: rest).take (sz + 1) :: chunk ((a :: rest).drop (sz + 1)) (sz + 1) := by
  rw [chunk, chunk, List.length_cons, chunkAux]
  congr 1
  apply chunkAux_fuel
  · simp only [List.drop_succ_cons, List.length_drop]
    omega
  · exact le_refl _

theorem chunk_flatten_aux {α : Type} (sz : Nat) :
    ∀ (n : Nat) (l : List α), l.length = n → (chunk l (sz + 1)).flatten = l := by
  intro n
  induction n using Nat.strong_induction_on with
  | _ n ih =>
    intro l hn
    cases l with
    | nil => rfl
    | cons a rest =>
      have hd : ((a :: rest).drop (sz + 1)).length < (a :: rest).length := by
        simp only [List.drop_succ_cons, List.length_drop, List.length_cons]
        omega
      rw [chunk_cons_eq]
      rw [List.flatten_cons, ih _ (hn ▸ hd) _ rfl, List.take_append_drop]

theorem chunk_length_le {α : Type} (sz : Nat) :
    ∀ (n : Nat) (l : List α), l.length = n → ∀ g ∈ chunk l (sz + 1), g.length ≤ sz + 1 := by
  intro n
  induction n using Nat.strong_induction_on with
  | _ n ih =>
    intro l hn g hg
    cases l with
    | nil => exact absurd hg (by rw [chunk]; exact List.not_mem_nil g)
    | cons a rest =>
      rw [chunk_cons_eq] at hg
      rcases List.mem_cons.mp hg with rfl | hg2
      · exact List.length_take_le _ _
      · have hd : ((a :: rest).drop (sz + 1)).length < (a :: rest).length := by
          simp only [List.drop_succ_cons, List.length_drop, List.length_cons]
          omega
        exact ih _ (hn ▸ hd) _ rfl g hg2

theorem chunk_flatten {α : Type} (sz : Nat) (l : List α) :
    (chunk l (sz + 1)).flatten = l :=
  chunk_flatten_aux sz l.length l rfl

theorem chunk_mem_subset {α : Type} {sz : Nat} {l : List α} {g : List α}
    (hg : g ∈ chunk l (sz + 1)) {x : α} (hx : x ∈ g) : x ∈ l := by
  rw [← chunk_flatten sz l, List.mem_flatten]
  exact ⟨g, hg, hx⟩

theorem chunk_exists_mem {α : Type} {sz : Nat} {l : List α} {x : α} (hx : x ∈ l) :
    ∃ g ∈ chunk l (sz + 1), x ∈ g := by
  rw [← List.mem_flatten]
  rw [chunk_flatten sz l]
  exact hx

theorem mem_foldl_append {α β : Type} (f : List α → List β) :
    ∀ (groups : List (List α)) (acc : List β) (x : β),
      (x ∈ groups.foldl (fun acc g => acc ++ f g) acc ↔ x ∈ acc ∨ ∃ g ∈ groups, x ∈ f g)
  | [], acc, x => by simp
  | g :: gs, acc, x => by
    simp only [List.foldl_cons]
    rw [mem_foldl_append f gs (acc ++ f g) x]
    simp only [List.mem_append, List.mem_cons]
    constructor
    · rintro ((h | h) | ⟨g', hg', hx⟩)
      · exact Or.inl h
      · exact Or.inr ⟨g, Or.inl rfl, h⟩
      · exact Or.inr ⟨g', Or.inr hg', hx⟩
    · rintro (h | ⟨g', (rfl | hg'), hx⟩)
      · exact Or.inl (Or.inl h)
      · exact Or.inl (Or.inr hx)
      · exact Or.inr ⟨g', hg', hx⟩

/-! ## The availability resolver. -/

theorem chunk_flatten_pos {α : Type} {size : Nat} (hsz : 0 < size) (l : List α) :
    (chunk l size).flatten = l := by
  obtain ⟨sz, rfl⟩ : ∃ sz, size = sz + 1 := ⟨size - 1, by omega⟩
  exact chunk_flatten sz l

theorem chunk_exists_mem_pos {α : Type} (size : Nat) (hsz : 0 < size) {l : List α}
    {x : α} (hx : x ∈ l) : ∃ g ∈ chunk l size, x ∈ g := by
  rw [← List.mem_flatten, chunk_flatten_pos hsz l]
  exact hx

theorem getSlotAvailability_eq_spec (s : Store) (slots : List Slot) :
    getSlotAvailability s slots = getSlotAvailabilitySpec s slots := by
  have hcont : ∀ (l : List Str) (k : Str), l.contains k = true ↔ k ∈ l :=
    fun l k => List.elem_iff
  rw [getSlotAvailability, getSlotAvailabilityT, getSlotAvailabilitySpec]
  dsimp only
  apply List.map_congr_left
  intro sl hsl
  have hkey : sl.key ∈ slots.map (fun sl => sl.key) := List.mem_map_of_mem _ hsl
  have hlock : ((slots.map (fun sl => sl.key)).filter (fun k => s.locks.contains k)).contains sl.key
      = s.locks.contains sl.key := by
    rw [Bool.eq_iff_iff, hcont, hcont, List.mem_filter]
    constructor
    · intro h
      exact (hcont _ _).mp h.2
    · intro h
      exact ⟨hkey, (hcont _ _).mpr h⟩
  have hbook : ((chunk (slots.map (fun sl => sl.key)) 30).foldl
        (fun acc g => acc ++ (queryAppointments s g).map (fun a => a.slotKey)) []).contains sl.key
      = s.appointments.any (fun a => a.slotKey == sl.key && isActive a.status) := by
    rw [Bool.eq_iff_iff, hcont, mem_foldl_append, List.any_eq_true]
    constructor
    · rintro (h | ⟨g, hg, hx⟩)
      · exact absurd h (List.not_mem_nil _)
      · obtain ⟨a, ha, ha2⟩ := List.mem_map.mp hx
        rw [queryAppointments, List.mem_filter] at ha
        refine ⟨a, ha.1, ?_⟩
        rw [Bool.and_eq_true] at ha ⊢
        exact ⟨beq_iff_eq.mpr ha2, ha.2.2⟩
    · rintro ⟨a, ha, hx⟩
      rw [Bool.and_eq_true, beq_iff_eq] at hx
      right
      obtain ⟨g, hg, hmem⟩ := chunk_exists_mem_pos 30 (by omega) (hx.1.symm ▸ hkey)
      refine ⟨g, hg, ?_⟩
      rw [List.mem_map]
      refine ⟨a, ?_, hx.1⟩
      rw [queryAppointments, List.mem_filter]
      rw [Bool.and_eq_true]
      exact ⟨ha, ⟨(hcont _ _).mpr hmem, hx.2⟩⟩
  rw [hlock, hbook]


/-! ## The reservation transaction. -/

theorem createAppointment_cases (method : Str) (body : CreateBody) (todayIso : Str)
    (freshId : Nat) (s : Store) :
    (createAppointment method body todayIso freshId s).2 = s ∨
    ∃ (key : Str) (appt : Appointment),
      createAppointment method body todayIso freshId s =
        (.ok freshId key,
         { config := s.config, locks := key :: s.locks, appointments := appt :: s.appointments }) ∧
      s.locks.contains key = false ∧ appt.slotKey = key ∧ appt.status = "booked".data ∧
      appt.id = freshId := by
  unfold createAppointment
  repeat' split
  all_goals try (left; rfl)
  all_goals try dsimp only
  repeat' split
  all_goals try (left; rfl)
  right
  refine ⟨_, _, rfl, ?_, rfl, rfl, rfl⟩
  simp_all

theorem fieldsOk_iff {body : CreateBody} {d t : Str} : fieldsOk body d t = true ↔
    body.dateIso = some d ∧ d.isEmpty = false ∧ isValidDateIso d = true ∧
    body.startTime = some t ∧ t.isEmpty = false ∧ isValidTime t = true ∧
    (∃ nm, body.patientName = some nm ∧ nm.isEmpty = false ∧ 2 ≤ (trimStr nm).length) ∧
    (∃ ph, body.phone = some ph ∧ ph.isEmpty = false ∧ isValidPhone ph = true) := by
  rw [fieldsOk]
  cases hpn : body.patientName <;> cases hph : body.phone <;>
    simp [Bool.and_eq_true, beq_iff_eq, Bool.not_eq_true'] <;> tauto

theorem createAppointment_valid_free {body : CreateBody} {d t : Str} {config : ClinicConfig}
    (todayIso : Str) (freshId : Nat) (s : Store) (hcfg : s.config = some config)
    (hf : fieldsOk body d t = true) (hw : windowOk config todayIso d = true)
    {chosenSlot : Slot}
    (hfind : (generateSlots (slotsFor config d)).find? (fun sl => sl.startTime == t) = some chosenSlot)
    (hfree : s.locks.contains (createSlotKey d t) = false) :
    createAppointment postMethod body todayIso freshId s =
      (.ok freshId (createSlotKey d t),
       { config := s.config, locks := createSlotKey d t :: s.locks,
         appointments := bookedAppointment freshId body d t chosenSlot :: s.appointments }) := by
  obtain ⟨hd, hde, hdv, ht, hte, htv, ⟨nm, hnm, hnme, hnml⟩, ⟨ph, hph, hphe, hphv⟩⟩ :=
    fieldsOk_iff.mp hf
  have hw2 : (strLt d todayIso || strLt (addDaysIso todayIso config.maxDaysAhead) d) = false := by
    rw [windowOk, Bool.not_eq_true'] at hw
    exact hw
  have hnml2 : ¬((trimStr nm).length < 2) := by omega
  rw [slotsFor] at hfind
  rw [createAppointment]
  rw [if_neg (by simp)]
  simp only [hd, ht, hnm, hph, hcfg, hde, hdv, hte, htv, hnme, hphe, hphv, hnml2,
    Bool.false_or, Bool.not_true, Bool.or_self, Bool.false_eq_true, if_false, decide_eq_true_eq,
    ite_false, hw2, hfind, hfree, bookedAppointment, Option.getD_some, Option.map_some]

theorem createAppointment_valid_taken {body : CreateBody} {d t : Str} {config : ClinicConfig}
    (todayIso : Str) (freshId : Nat) (s : Store) (hcfg : s.config = some config)
    (hf : fieldsOk body d t = true) (hw : windowOk config todayIso d = true)
    (hfind : ((generateSlots (slotsFor config d)).find? (fun sl => sl.startTime == t)).isSome = true)
    (htaken : s.locks.contains (createSlotKey d t) = true) :
    createAppointment postMethod body todayIso freshId s = (.err 409 SLOT_TAKEN, s) := by
  obtain ⟨hd, hde, hdv, ht, hte, htv, ⟨nm, hnm, hnme, hnml⟩, ⟨ph, hph, hphe, hphv⟩⟩ :=
    fieldsOk_iff.mp hf
  obtain ⟨chosenSlot, hfind2⟩ := Option.isSome_iff_exists.mp hfind
  have hw2 : (strLt d todayIso || strLt (addDaysIso todayIso config.maxDaysAhead) d) = false := by
    rw [windowOk, Bool.not_eq_true'] at hw
    exact hw
  have hnml2 : ¬((trimStr nm).length < 2) := by omega
  rw [slotsFor] at hfind2
  rw [createAppointment]
  rw [if_neg (by simp)]
  simp only [hd, ht, hnm, hph, hcfg, hde, hdv, hte, htv, hnme, hphe, hphv, hnml2,
    Bool.false_or, Bool.not_true, Bool.or_self, Bool.false_eq_true, if_false, decide_eq_true_eq,
    ite_false, hw2, hfind2, htaken, ite_true]

theorem createAppointment_err_unchanged {method : Str} {body : CreateBody} {todayIso : Str}
    {freshId : Nat} {s : Store} {status : Nat} {code : String} {s2 : Store}
    (h : createAppointment method body todayIso freshId s = (.err status code, s2)) :
    s2 = s := by
  rcases createAppointment_cases method body todayIso freshId s with h2 | ⟨key, appt, heq, -, -, -, -⟩
  · rw [h] at h2
    exact h2
  · rw [h] at heq
    exact absurd (congrArg Prod.fst heq) (by simp)


/-! ## The coupling invariant of reachable stores. -/

theorem reachable_inv {s : Store} (h : Reachable s) : StoreInv s := by
  induction h with
  | init config =>
    exact ⟨by simp, by simp, by simp, by simp⟩
  | step method body todayIso freshId s hs hfresh ih =>
    rcases createAppointment_cases method body todayIso freshId s with
      h2 | ⟨key, appt, heq, hfree, hkey, hst, hid⟩
    · rw [h2]
      exact ih
    · rw [heq]
      obtain ⟨i1, i2, i3, i4⟩ := ih
      have hknotin : key ∉ s.locks := by
        intro hmem
        have h3 : s.locks.contains key = true := List.elem_iff.mpr hmem
        rw [hfree] at h3
        exact Bool.false_ne_true h3
      refine ⟨?_, ?_, ?_, ?_⟩
      · intro a ha
        rcases List.mem_cons.mp ha with rfl | ha2
        · rw [hkey]
          exact List.mem_cons_self _ _
        · exact List.mem_cons_of_mem _ (i1 a ha2)
      · intro k hk
        rcases List.mem_cons.mp hk with rfl | hk2
        · exact ⟨appt, List.mem_cons_self _ _, hkey⟩
        · obtain ⟨a, ha, hak⟩ := i2 k hk2
          exact ⟨a, List.mem_cons_of_mem _ ha, hak⟩
      · rw [List.map_cons, List.nodup_cons]
        refine ⟨?_, i3⟩
        intro hmem
        obtain ⟨a, ha, hak⟩ := List.mem_map.mp hmem
        have := i1 a ha
        rw [hak, hkey] at this
        exact hknotin this
      · rw [List.nodup_cons]
        exact ⟨hknotin, i4⟩

theorem filter_key_le_one (key : Str) :
    ∀ (l : List Appointment), (l.map (fun a => a.slotKey)).Nodup →
      (l.filter (fun a => a.slotKey == key && isActive a.status)).length ≤ 1
  | [], _ => by simp
  | a :: rest, h => by
    rw [List.map_cons, List.nodup_cons] at h
    rw [List.filter_cons]
    by_cases hak : (a.slotKey == key && isActive a.status) = true
    · rw [if_pos hak]
      have hz : rest.filter (fun b => b.slotKey == key && isActive b.status) = [] := by
        rw [List.filter_eq_nil_iff]
        intro b hb hpb
        rw [Bool.and_eq_true, beq_iff_eq] at hak hpb
        apply h.1
        rw [hak.1, ← hpb.1]
        exact List.mem_map_of_mem _ hb
      rw [hz]
      simp
    · rw [if_neg hak]
      exact filter_key_le_one key rest h.2

theorem countActive_le_one {s : Store} (h : Reachable s) (key : Str) :
    countActive s key ≤ 1 :=
  filter_key_le_one key s.appointments (reachable_inv h).2.2.1

theorem countActive_eq_zero_of_free {s : Store} (hinv : StoreInv s) {key : Str}
    (hfree : s.locks.contains key = false) : countActive s key = 0 := by
  rw [countActive]
  have hz : s.appointments.filter (fun a => a.slotKey == key && isActive a.status) = [] := by
    rw [List.filter_eq_nil_iff]
    intro a ha hpa
    rw [Bool.and_eq_true, beq_iff_eq] at hpa
    have h1 := hinv.1 a ha
    rw [hpa.1] at h1
    have h2 : s.locks.contains key = true := List.elem_iff.mpr h1
    rw [hfree] at h2
    exact Bool.false_ne_true h2
  rw [hz]
  rfl

theorem runCreates_taken {todayIso : Str} {config : ClinicConfig} {d t : Str}
    (hw : windowOk config todayIso d = true)
    (hfind : ((generateSlots (slotsFor config d)).find? (fun sl => sl.startTime == t)).isSome = true) :
    ∀ (reqs : List (CreateBody × Nat)) (s : Store),
      s.config = some config →
      (∀ rq ∈ reqs, fieldsOk rq.1 d t = true) →
      s.locks.contains (createSlotKey d t) = true →
      runCreates todayIso reqs s = (reqs.map (fun _ => CreateResult.err 409 SLOT_TAKEN), s)
  | [], s, _, _, _ => rfl
  | (body0, id0) :: rest, s, hcfg, hfo, htaken => by
    have h1 := createAppointment_valid_taken todayIso id0 s hcfg
      (hfo (body0, id0) (List.mem_cons_self _ _)) hw hfind htaken
    rw [runCreates, h1]
    have h2 := runCreates_taken hw hfind rest s hcfg
      (fun rq hrq => hfo rq (List.mem_cons_of_mem _ hrq)) htaken
    rw [h2]
    rfl

theorem runCreates_first_wins {todayIso : Str} {config : ClinicConfig} {d t : Str}
    {body0 : CreateBody} {id0 : Nat} {rest : List (CreateBody × Nat)} {s : Store}
    (hcfg : s.config = some config)
    (hfo : ∀ rq ∈ (body0, id0) :: rest, fieldsOk rq.1 d t = true)
    (hw : windowOk config todayIso d = true)
    (hfind : ((generateSlots (slotsFor config d)).find? (fun sl => sl.startTime == t)).isSome = true)
    (hfree : s.locks.contains (createSlotKey d t) = false) :
    ∃ chosenSlot : Slot,
      (generateSlots (slotsFor config d)).find? (fun sl => sl.startTime == t) = some chosenSlot ∧
      runCreates todayIso ((body0, id0) :: rest) s =
        (CreateResult.ok id0 (createSlotKey d t) :: rest.map (fun _ => CreateResult.err 409 SLOT_TAKEN),
         { config := s.config, locks := createSlotKey d t :: s.locks,
           appointments := bookedAppointment id0 body0 d t chosenSlot :: s.appointments }) := by
  obtain ⟨chosenSlot, hfind2⟩ := Option.isSome_iff_exists.mp hfind
  refine ⟨chosenSlot, hfind2, ?_⟩
  have h1 := createAppointment_valid_free todayIso id0 s hcfg
    (hfo (body0, id0) (List.mem_cons_self _ _)) hw hfind2 hfree
  rw [runCreates, h1]
  have h2 := runCreates_taken hw hfind rest
    { config := s.config, locks := createSlotKey d t :: s.locks,
      appointments := bookedAppointment id0 body0 d t chosenSlot :: s.appointments }
    hcfg (fun rq hrq => hfo rq (List.mem_cons_of_mem _ hrq)) (by simp)
  rw [h2]


/-! ## The claims. -/

/-- C3: the availability resolver marks a slot available exactly when its
key is absent from both the reservation-marker set and the set of
appointments with status in booked/completed, and it returns the same
slots in the same order, each annotated with the `available` flag. -/
theorem c3_availability_resolution (s : Store) (slots : List Slot) :
    getSlotAvailability s slots = slots.map (fun sl =>
      { startTime := sl.startTime, endTime := sl.endTime, key := sl.key
        available := !s.locks.contains sl.key
            && !s.appointments.any (fun a => a.slotKey == sl.key && isActive a.status) }) :=
  getSlotAvailability_eq_spec s slots

/-- C10: a request whose method is not POST fails with status 405 and code
`METHOD_NOT_ALLOWED` on both operations, before any validation or store
access: the result is independent of the body and of the store, and the
store is returned unchanged. -/
theorem c10_method_not_allowed (method : Str) (hm : method ≠ postMethod)
    (bodyDateIso : Option Str) (body : CreateBody) (todayIso : Str) (freshId : Nat)
    (s : Store) :
    getAvailability method bodyDateIso todayIso s = .err 405 METHOD_NOT_ALLOWED ∧
    createAppointment method body todayIso freshId s = (.err 405 METHOD_NOT_ALLOWED, s) := by
  constructor
  · rw [getAvailability.eq_def, if_pos hm]
  · rw [createAppointment.eq_def, if_pos hm]

/-- Witness for C10 at the concrete method GET. -/
theorem c10_method_not_allowed_witness :
    getAvailability ( "GET".data) (some date0) today0 store0 = .err 405 METHOD_NOT_ALLOWED ∧
    createAppointment ( "GET".data) body0 today0 7 store0 = (.err 405 METHOD_NOT_ALLOWED, store0) :=
  c10_method_not_allowed ( "GET".data) (by decide) (some date0) body0 today0 7 store0

/-- C2: the reservation write is all-or-nothing.  Every failing
`createAppointment` call (including `SLOT_TAKEN`, where the transaction
aborts on finding the marker) returns the store unchanged, and in every
reachable store each appointment has its marker and each marker has an
appointment: no partial marker/appointment pair is ever reachable. -/
theorem c2_reservation_atomicity :
    (∀ (method : Str) (body : CreateBody) (todayIso : Str) (freshId : Nat)
        (s s2 : Store) (status : Nat) (code : String),
      createAppointment method body todayIso freshId s = (.err status code, s2) → s2 = s) ∧
    (∀ s : Store, Reachable s →
      (∀ a ∈ s.appointments, a.slotKey ∈ s.locks) ∧
      (∀ k ∈ s.locks, ∃ a ∈ s.appointments, a.slotKey = k)) := by
  constructor
  · intro method body todayIso freshId s s2 status code h
    exact createAppointment_err_unchanged h
  · intro s hs
    exact ⟨(reachable_inv hs).1, (reachable_inv hs).2.1⟩

/-- Witness for C2: the `SLOT_TAKEN` failure on a locked slot leaves the
store unchanged, and the store reached by one successful booking satisfies
the marker/appointment coupling. -/
theorem c2_reservation_atomicity_witness :
    lockStore = lockStore ∧
    (∀ a ∈ (createAppointment postMethod body0 today0 7 store0).2.appointments,
      a.slotKey ∈ (createAppointment postMethod body0 today0 7 store0).2.locks) := by
  constructor
  · exact c2_reservation_atomicity.1 postMethod body0 today0 7 lockStore lockStore 409
      SLOT_TAKEN (by decide)
  · exact (c2_reservation_atomicity.2 _
      (Reachable.step postMethod body0 today0 7 store0 (Reachable.init (some cfg0))
        (by intro a ha; exact absurd ha (List.not_mem_nil a)))).1

/-- C8 counterexample: the claim says the resolver splits both the
marker existence read and the appointment query into store-sized (30-key)
chunks, but with 31 candidate slots the source issues the marker read as a
single `getAll` call carrying all 31 keys. -/
theorem c8_counterexample_unchunked_getall :
    (getSlotAvailabilityT store31 slots31).2.head? =
      some (StoreCall.getAll (slots31.map (fun sl => sl.key))) ∧
    (slots31.map (fun sl => sl.key)).length = 31 ∧ 30 < 31 := by
  refine ⟨rfl, by decide, by decide⟩

/-- C8 amended: the appointment membership query is split into 30-key
chunks and the per-chunk results are merged, while the marker existence
read is issued as one batched `getAll` over the whole key set (the store
imposes no arity cap on batched gets); the resolved availability equals
what a single unbounded query would return. -/
theorem c8_chunking_amended (s : Store) (slots : List Slot) :
    getSlotAvailability s slots = getSlotAvailabilitySpec s slots ∧
    (getSlotAvailabilityT s slots).2.head? =
      some (StoreCall.getAll (slots.map (fun sl => sl.key))) ∧
    (∀ keys : List Str, StoreCall.apptQuery keys ∈ (getSlotAvailabilityT s slots).2 →
      keys.length ≤ 30) := by
  refine ⟨getSlotAvailability_eq_spec s slots, rfl, ?_⟩
  intro keys hmem
  rw [getSlotAvailabilityT] at hmem
  dsimp only at hmem
  rcases List.mem_cons.mp hmem with h | h
  · exact absurd h (by simp)
  · obtain ⟨g, hg, hge⟩ := List.mem_map.mp h
    have : g = keys := by
      injection hge
    subst this
    exact chunk_length_le 29 _ _ rfl g hg

/-- Witness for C8 amended, at the 31-slot instance: the marker read is a
single call over all 31 keys and the first appointment chunk carries 30. -/
theorem c8_chunking_amended_witness :
    (getSlotAvailabilityT store31 slots31).2.head? =
      some (StoreCall.getAll (slots31.map (fun sl => sl.key))) ∧
    ((slots31.map (fun sl => sl.key)).take 30).length ≤ 30 :=
  ⟨(c8_chunking_amended store31 slots31).2.1,
   (c8_chunking_amended store31 slots31).2.2 _ (by decide)⟩


theorem any_map_eq {α β : Type} (f : α → β) (p : β → Bool) :
    ∀ l : List α, (l.map f).any p = l.any (fun a => p (f a))
  | [] => rfl
  | a :: l => by rw [List.map_cons, List.any_cons, List.any_cons, any_map_eq f p l]

/-- C4: for every grid-aligned candidate slot that fits inside the working
window and every break list (possibly empty, unsorted, duplicated or
overlapping), the generator keeps the slot if and only if no break
satisfies the open-overlap test `slotStart < breakEnd AND
slotEnd > breakStart`; every break is tested independently, and touching a
break exactly at an endpoint does not reject the slot. -/
theorem c4_break_overlap_test (p : GenerateSlotsParams) (ws we : Int) (k : Nat)
    (hs : parseTimeToMinutes p.workHours.start = some ws)
    (he : parseTimeToMinutes p.workHours.finish = some we)
    (hm : 0 < p.slotMinutes)
    (hfit : ws + (k : Int) * p.slotMinutes + p.slotMinutes ≤ we) :
    (mkSlot p.dateIso (ws + (k : Int) * p.slotMinutes)
        (ws + (k : Int) * p.slotMinutes + p.slotMinutes) ∈ generateSlots p)
      ↔ ∀ bw ∈ p.breaks,
          hasOverlap (some (ws + (k : Int) * p.slotMinutes))
            (some (ws + (k : Int) * p.slotMinutes + p.slotMinutes))
            (parseTimeToMinutes bw.start) (parseTimeToMinutes bw.finish) = false := by
  have hws : 0 ≤ ws := parseTimeToMinutes_nonneg hs
  have hkm : (0 : Int) ≤ (k : Int) * p.slotMinutes :=
    mul_nonneg (Int.natCast_nonneg k) (le_of_lt hm)
  rw [mem_generateSlots hs he hm]
  constructor
  · rintro ⟨k2, hk2, hke⟩
    obtain ⟨hany, heq⟩ := gridEntry_eq_some hke
    have hkm2 : (0 : Int) ≤ (k2 : Int) * p.slotMinutes :=
      mul_nonneg (Int.natCast_nonneg k2) (le_of_lt hm)
    have hst : ws + (k2 : Int) * p.slotMinutes = ws + (k : Int) * p.slotMinutes := by
      have hcomp := congrArg Slot.startTime heq
      rw [mkSlot, mkSlot] at hcomp
      exact (formatMinutesToTime_inj (by omega) (by omega) hcomp).symm
    rw [hst] at hany
    rw [parsedBreaks, any_map_eq, List.any_eq_false] at hany
    intro bw hbw
    have := hany bw hbw
    simpa using this
  · intro hall
    refine ⟨k, by linarith [hfit], ?_⟩
    unfold gridEntry
    dsimp only
    rw [if_neg]
    rw [parsedBreaks, any_map_eq, Bool.not_eq_true, List.any_eq_false]
    intro bw hbw
    simpa using hall bw hbw

/-- Witness for C4: with a break 09:30-09:45, the 30-minute slot
09:00-09:30 ending exactly at the break's start is kept. -/
theorem c4_break_overlap_test_witness :
    mkSlot breakParams.dateIso (540 + ((0 : Nat) : Int) * 30)
      (540 + ((0 : Nat) : Int) * 30 + 30) ∈ generateSlots breakParams :=
  (c4_break_overlap_test breakParams 540 600 0 (by decide) (by decide) (by decide)
    (by decide)).mpr (by decide)

/-- C5: for well-formed work hours, the generator output is exactly the
ascending grid `workStart, workStart + slotMinutes, ...` filtered by the
fit and break tests (the closed form); every returned slot lies entirely
inside the working window (a slot running past `workEnd` is dropped, not
truncated) and spans exactly `slotMinutes` minutes; consecutive returned
slots never overlap; and a non-positive `slotMinutes` or
`workStart ≥ workEnd` yields the empty list rather than an error. -/
theorem c5_generator_contract (p : GenerateSlotsParams) (ws we : Int)
    (hs : parseTimeToMinutes p.workHours.start = some ws)
    (he : parseTimeToMinutes p.workHours.finish = some we) :
    (p.slotMinutes ≤ 0 → generateSlots p = []) ∧
    (we ≤ ws → generateSlots p = []) ∧
    (0 < p.slotMinutes →
      generateSlots p = (List.range (slotIters we ws p.slotMinutes)).filterMap
          (gridEntry p.dateIso (parsedBreaks p) p.slotMinutes ws) ∧
      (∀ sl ∈ generateSlots p, ∃ st : Int, 0 ≤ st ∧ st + p.slotMinutes ≤ we ∧
        sl = mkSlot p.dateIso st (st + p.slotMinutes) ∧
        parseTimeToMinutes sl.startTime = some st ∧
        parseTimeToMinutes sl.endTime = some (st + p.slotMinutes)) ∧
      (generateSlots p).Pairwise
        (fun a b => jle (parseTimeToMinutes a.endTime) (parseTimeToMinutes b.startTime) = true)) := by
  refine ⟨generateSlots_nonpos, generateSlots_degenerate hs he,
    fun hm => ⟨generateSlots_eq hs he hm, ?_, generateSlots_pairwise hs he hm⟩⟩
  intro sl hsl
  obtain ⟨st, hst0, hfit, hmk⟩ := generateSlots_structure hs he hm hsl
  subst hmk
  refine ⟨st, hst0, hfit, rfl, ?_, ?_⟩
  · exact parseTimeToMinutes_format hst0
  · exact parseTimeToMinutes_format (by omega)

/-- Witness for C5 at working hours 09:00-10:00 with 15-minute slots:
the output is the filtered grid. -/
theorem c5_generator_contract_witness :
    generateSlots smallParams = (List.range (slotIters 600 540 smallParams.slotMinutes)).filterMap
      (gridEntry smallParams.dateIso (parsedBreaks smallParams) smallParams.slotMinutes 540) :=
  ((c5_generator_contract smallParams 540 600 (by decide) (by decide)).2.2 (by decide)).1


/-- C6: the booking-window check of `getAvailability` rejects a
malformed date with `INVALID_DATE`, rejects a well-formed date with
`DATE_OUT_OF_RANGE` exactly when it falls outside
`todayISO ≤ candidate ≤ addDaysISO(todayISO, maxDaysAhead)` under
lexicographic string comparison, and `addDaysISO` performs calendar
arithmetic that crosses month and year boundaries: with
`maxDaysAhead = 30` and today `2024-01-01`, the date `2024-01-31` is
accepted while `2024-02-01` and `2023-12-31` are rejected with
`DATE_OUT_OF_RANGE`. -/
theorem c6_date_window :
    (∀ (bodyDateIso : Option Str) (todayIso d : Str) (s : Store) (config : ClinicConfig),
      s.config = some config → bodyDateIso = some d → d.isEmpty = false →
      ((isValidDateIso d = false →
         getAvailability postMethod bodyDateIso todayIso s = .err 400 INVALID_DATE) ∧
       (isValidDateIso d = true →
         (getAvailability postMethod bodyDateIso todayIso s ≠ .err 400 DATE_OUT_OF_RANGE ↔
           (strLe todayIso d = true ∧
            strLe d (addDaysIso todayIso config.maxDaysAhead) = true))))) ∧
    addDaysIso ( "2024-01-01".data) 30 = "2024-01-31".data ∧
    addDaysIso ( "2024-01-31".data) 1 = "2024-02-01".data ∧
    addDaysIso ( "2023-12-31".data) 1 = "2024-01-01".data ∧
    (getAvailability postMethod (some ( "2024-01-31".data)) today0 store0).isOk = true ∧
    getAvailability postMethod (some ( "2024-02-01".data)) today0 store0 =
      .err 400 DATE_OUT_OF_RANGE ∧
    getAvailability postMethod (some ( "2023-12-31".data)) today0 store0 =
      .err 400 DATE_OUT_OF_RANGE := by
  refine ⟨?_, by decide, by decide, by decide, by decide, by decide, by decide⟩
  intro bodyDateIso todayIso d s config hcfg hbody hde
  subst hbody
  constructor
  · intro hdv
    rw [getAvailability.eq_def, if_neg (by simp)]
    dsimp only
    rw [hde, hdv]
    simp
  · intro hdv
    rw [getAvailability.eq_def, if_neg (by simp)]
    dsimp only
    rw [hde, hdv, hcfg]
    simp only [Bool.not_true, Bool.or_false, Bool.false_or, if_false]
    have hiff1 : strLe todayIso d = true ↔ strLt d todayIso = false := by
      rw [← strLt_eq_false_iff]
    have hiff2 : strLe d (addDaysIso todayIso config.maxDaysAhead) = true ↔
        strLt (addDaysIso todayIso config.maxDaysAhead) d = false := by
      rw [← strLt_eq_false_iff]
    by_cases hcond : (strLt d todayIso ||
        strLt (addDaysIso todayIso config.maxDaysAhead) d) = true
    · rw [if_pos hcond]
      rw [Bool.or_eq_true] at hcond
      constructor
      · intro hne
        exact absurd rfl hne
      · rintro ⟨h1, h2⟩
        rw [hiff1] at h1
        rw [hiff2] at h2
        rcases hcond with hc | hc
        · rw [h1] at hc
          exact absurd hc (by simp)
        · rw [h2] at hc
          exact absurd hc (by simp)
    · rw [if_neg hcond]
      have hcond2 := Bool.not_eq_true _ ▸ hcond
      rw [Bool.or_eq_false_iff] at hcond2
      constructor
      · intro _
        exact ⟨hiff1.mpr hcond2.1, hiff2.mpr hcond2.2⟩
      · intro _ habs
        exact absurd habs (by simp)


/-- Witness for C6 at a malformed date and the concrete window instance. -/
theorem c6_date_window_witness :
    getAvailability postMethod (some ( "2024/01/01".data)) today0 store0 =
      .err 400 INVALID_DATE :=
  (c6_date_window.1 (some ( "2024/01/01".data)) today0 ( "2024/01/01".data) store0 cfg0
    rfl rfl (by decide)).1 (by decide)

/-- C7: when the supplied start time does not match any slot of the
freshly re-derived generator output for the requested date, the booking
fails with `INVALID_SLOT` regardless of the reservation state, and the
store is unchanged; when it does match, the stored appointment's end time
is copied from the re-derived slot (the request body carries no end
time). -/
theorem c7_invalid_slot_rejection (body : CreateBody) (todayIso d t : Str)
    (freshId : Nat) (s : Store) (config : ClinicConfig)
    (hcfg : s.config = some config) (hf : fieldsOk body d t = true)
    (hw : windowOk config todayIso d = true) :
    ((generateSlots (slotsFor config d)).find? (fun sl => sl.startTime == t) = none →
      createAppointment postMethod body todayIso freshId s = (.err 400 INVALID_SLOT, s)) ∧
    (∀ chosenSlot,
      (generateSlots (slotsFor config d)).find? (fun sl => sl.startTime == t) = some chosenSlot →
      s.locks.contains (createSlotKey d t) = false →
      ∃ appt, (createAppointment postMethod body todayIso freshId s).2.appointments =
          appt :: s.appointments ∧ appt.endTime = chosenSlot.endTime ∧ appt.startTime = t) := by
  obtain ⟨hd, hde, hdv, ht, hte, htv, ⟨nm, hnm, hnme, hnml⟩, ⟨ph, hph, hphe, hphv⟩⟩ :=
    fieldsOk_iff.mp hf
  have hw2 : (strLt d todayIso || strLt (addDaysIso todayIso config.maxDaysAhead) d) = false := by
    rw [windowOk, Bool.not_eq_true'] at hw
    exact hw
  have hnml2 : ¬((trimStr nm).length < 2) := by omega
  constructor
  · intro hfind
    rw [slotsFor] at hfind
    rw [createAppointment]
    rw [if_neg (by simp)]
    simp only [hd, ht, hnm, hph, hcfg, hde, hdv, hte, htv, hnme, hphe, hphv, hnml2,
      Bool.false_or, Bool.not_true, Bool.or_self, Bool.false_eq_true, if_false,
      decide_eq_true_eq, ite_false, hw2, hfind]
  · intro chosenSlot hfind hfree
    rw [createAppointment_valid_free todayIso freshId s hcfg hf hw hfind hfree]
    exact ⟨bookedAppointment freshId body d t chosenSlot, rfl, rfl, rfl⟩

/-- Witness for C7: requesting 09:05 on the 15-minute grid of `cfg0`
fails with `INVALID_SLOT` even on an empty store. -/
theorem c7_invalid_slot_rejection_witness :
    createAppointment postMethod body0905 today0 7 store0 = (.err 400 INVALID_SLOT, store0) :=
  (c7_invalid_slot_rejection body0905 today0 date0 ( "09:05".data) 7 store0 cfg0
    rfl (by decide) (by decide)).1 (by decide)


/-- C1: in every reachable store at most one appointment with status in
booked/completed exists per slot key; and for any batch of
`createAppointment` calls targeting the same free `(date, startTime)` with
valid inputs — serialized in an arbitrary order, which models concurrent
execution because the store's transactions are serializable — the first
transaction commits the marker write and returns an appointment id while
every other one fails with `SLOT_TAKEN`, and afterwards exactly one active
appointment exists for that slot key. -/
theorem c1_exclusive_booking :
    (∀ (s : Store) (key : Str), Reachable s → countActive s key ≤ 1) ∧
    (∀ (todayIso d t : Str) (config : ClinicConfig) (firstBody : CreateBody) (firstId : Nat)
        (rest : List (CreateBody × Nat)) (s : Store),
      Reachable s → s.config = some config →
      (∀ rq ∈ (firstBody, firstId) :: rest, fieldsOk rq.1 d t = true) →
      windowOk config todayIso d = true →
      ((generateSlots (slotsFor config d)).find? (fun sl => sl.startTime == t)).isSome = true →
      s.locks.contains (createSlotKey d t) = false →
      (runCreates todayIso ((firstBody, firstId) :: rest) s).1 =
        CreateResult.ok firstId (createSlotKey d t)
          :: rest.map (fun _ => CreateResult.err 409 SLOT_TAKEN) ∧
      countActive (runCreates todayIso ((firstBody, firstId) :: rest) s).2
        (createSlotKey d t) = 1) := by
  constructor
  · exact fun s key hs => countActive_le_one hs key
  · intro todayIso d t config firstBody firstId rest s hreach hcfg hfo hw hfind hfree
    obtain ⟨chosenSlot, hcs, hrun⟩ := runCreates_first_wins hcfg hfo hw hfind hfree
    rw [hrun]
    refine ⟨rfl, ?_⟩
    rw [countActive]
    dsimp only
    rw [List.filter_cons]
    have hmatch : ((bookedAppointment firstId firstBody d t chosenSlot).slotKey ==
        createSlotKey d t &&
        isActive (bookedAppointment firstId firstBody d t chosenSlot).status) = true := by
      rw [bookedAppointment]
      simp [isActive]
    rw [if_pos hmatch]
    have hzero := countActive_eq_zero_of_free (reachable_inv hreach) hfree
    rw [countActive] at hzero
    rw [List.length_cons, hzero]

/-- Witness for C1: two serialized bookings of the same slot on a fresh
store; the first succeeds, the second fails with `SLOT_TAKEN`, and exactly
one active appointment remains. -/
theorem c1_exclusive_booking_witness :
    (runCreates today0 [(body0, 1), (body0, 2)] store0).1 =
      CreateResult.ok 1 (createSlotKey date0 ( "09:15".data))
        :: [(body0, 2)].map (fun _ => CreateResult.err 409 SLOT_TAKEN) ∧
    countActive (runCreates today0 [(body0, 1), (body0, 2)] store0).2
      (createSlotKey date0 ( "09:15".data)) = 1 :=
  c1_exclusive_booking.2 today0 date0 ( "09:15".data) cfg0 body0 1 [(body0, 2)] store0
    (Reachable.init (some cfg0)) rfl (by decide) (by decide) (by decide) (by decide)

end Physio
